import Mathlib

/-!
Verification of the breeze.vim core module (`autoload/breeze/core.py`).

The development shallowly embeds the `Breeze` class: the caching decorator
`parse_current_buffer`, the navigation operations (`match_tag`,
`goto_next_sibling`, `goto_prev_sibling`, `goto_first_sibling`,
`goto_last_sibling`, `goto_first_child`, `goto_last_child`, `goto_parent`)
and the two highlight operations (`highlight_curr_element`,
`highlight_element_block`).

Editor effects (`v.cursor`, `v.echom`, `v.highlight`) are reified as data:
a navigation operation produces a list of effects and a highlight operation
produces the list of Vim match patterns it submits.  The HTML parser lives
in a module that is not part of the sources at hand, so `Parser.feed` is a
parameter of the cache gate and the guarantee of `get_current_node`
(the returned node's span contains the queried position) appears as a
hypothesis where a claim needs it.
-/

namespace Breeze

/-- Buffer position as a (line, column) pair, compared in document order. -/
abbrev Pos := Nat × Nat

/-- Document-order comparison of positions: `a` precedes or equals `b`. -/
def posLE (a b : Pos) : Prop := a.1 < b.1 ∨ (a.1 = b.1 ∧ a.2 ≤ b.2)

instance (a b : Pos) : Decidable (posLE a b) := by
  unfold posLE; infer_instance

/-- One element node of the DOM tree, with the fields the navigation and
highlight operations read: `tag`, `start`, `end` (spelled `end_`) and
`starttag_text`. -/
structure Node where
  tag : String
  start : Pos
  end_ : Pos
  starttag_text : String
deriving DecidableEq, Repr

/-- View of a node's parent as used by the sibling/parent operations:
its `tag`, its `start` and its ordered `children` list. -/
structure ParentView where
  tag : String
  start : Pos
  children : List Node
deriving DecidableEq, Repr

/-- A current node together with its surrounding tree context: the node
itself, its parent (the synthetic root has none) and its own children. -/
structure NodeCtx where
  node : Node
  parent : Option ParentView
  children : List Node
deriving DecidableEq, Repr

/-- The fixed set of void/empty tags built in `Breeze.__init__` (the source
lists "base" twice; the duplicate is kept, membership is unaffected). -/
def empty_tags : List String :=
  ["br", "base", "hr", "meta", "link", "base", "source",
   "img", "embed", "param", "area", "col", "input", "command",
   "keygen", "track", "wbr"]

/-- An editor effect issued by a navigation operation: either a cursor
move (`v.cursor`) or a status message (`v.echom`). -/
inductive Eff where
  | cursor (p : Pos)
  | echom (m : String)
deriving DecidableEq, Repr

/-- The `jump_to_angle_bracket` adjustment every jump operation applies to
its target: land on the `<` itself when the setting is true, one column to
the right otherwise (`if not settings.get(...): col += 1`). -/
def adjust (jb : Bool) (p : Pos) : Pos :=
  if jb then p else (p.1, p.2 + 1)

/-- Replay a list of effects against an initial cursor position, returning
the final cursor position and the emitted messages in order. -/
def runEffs (effs : List Eff) (c0 : Pos) : Pos × List String :=
  effs.foldl
    (fun acc e =>
      match e with
      | Eff.cursor p => (p, acc.2)
      | Eff.echom m => (acc.1, acc.2 ++ [m]))
    (c0, [])

/-- A Vim match pattern submitted through `v.highlight`, one constructor per
format string occurring in the source. -/
inductive Pattern where
  /-- Pattern of shape `\%{line}l\%>{c1}c\%<{c2}c`. -/
  | lineColRange (line c1 c2 : Nat)
  /-- Pattern of shape `\%{line}l\%>{c}c`. -/
  | lineColAfter (line c : Nat)
  /-- Pattern of shape `\%{line}l\%<{c}c`. -/
  | lineColBefore (line c : Nat)
  /-- Pattern of shape `\%>{l1}l\%<{l2}l`. -/
  | lineRange (l1 l2 : Nat)
deriving DecidableEq, Repr

/-- Target selection of `match_tag`: the start position when the cursor is
on a different line than the opening tag, otherwise the end position when
the cursor column is left of the opening tag text's right edge and the
start position otherwise. -/
def match_tag_target (node : Node) (cursor : Pos) : Pos :=
  if cursor.1 ≠ node.start.1 then node.start
  else if cursor.2 < node.start.2 + node.starttag_text.length then node.end_
  else node.start

/-- The `match_tag` operation: with a current node it moves the cursor to
the adjusted target; with none it does nothing. -/
def match_tag (jb : Bool) (cur : Option Node) (cursor : Pos) : List Eff :=
  match cur with
  | none => []
  | some node => [Eff.cursor (adjust jb (match_tag_target node cursor))]

/-- The scan `goto_next_sibling` performs over `parent.children`: every
child matching the current node's (start, end) pair triggers a jump to the
next child's start, or the "no siblings found" message when there is none. -/
def nextSibScan (jb : Bool) (node : Node) : List Node → List Eff
  | [] => []
  | c :: rest =>
    (if c.start = node.start ∧ c.end_ = node.end_ then
      match rest with
      | n :: _ => [Eff.cursor (adjust jb n.start)]
      | [] => [Eff.echom "no siblings found"]
    else []) ++ nextSibScan jb node rest

/-- The scan `goto_prev_sibling` performs, carrying the previously seen
child (`ch[i-1]`); a match jumps to it, or reports "no siblings found" when
the match is the first child. -/
def prevSibScan (jb : Bool) (node : Node) : Option Node → List Node → List Eff
  | _, [] => []
  | prev, c :: rest =>
    (if c.start = node.start ∧ c.end_ = node.end_ then
      match prev with
      | some m => [Eff.cursor (adjust jb m.start)]
      | none => [Eff.echom "no siblings found"]
    else []) ++ prevSibScan jb node (some c) rest

/-- The `goto_next_sibling` operation. -/
def goto_next_sibling (jb : Bool) (cur : Option NodeCtx) : List Eff :=
  match cur with
  | none => []
  | some ctx =>
    match ctx.parent with
    | none => [Eff.echom "no more siblings"]
    | some p => nextSibScan jb ctx.node p.children

/-- The `goto_prev_sibling` operation. -/
def goto_prev_sibling (jb : Bool) (cur : Option NodeCtx) : List Eff :=
  match cur with
  | none => []
  | some ctx =>
    match ctx.parent with
    | none => [Eff.echom "no previous siblings"]
    | some p => prevSibScan jb ctx.node none p.children

/-- The `goto_first_sibling` operation; `parent.children[0]` presupposes a
nonempty children list (the current node is always among them), so the
empty case is left effect-free. -/
def goto_first_sibling (jb : Bool) (cur : Option NodeCtx) : List Eff :=
  match cur with
  | none => []
  | some ctx =>
    match ctx.parent with
    | none => []
    | some p =>
      match p.children with
      | [] => []
      | c :: _ => [Eff.cursor (adjust jb c.start)]

/-- The `goto_last_sibling` operation (`parent.children[-1]`; same
nonemptiness presupposition as `goto_first_sibling`). -/
def goto_last_sibling (jb : Bool) (cur : Option NodeCtx) : List Eff :=
  match cur with
  | none => []
  | some ctx =>
    match ctx.parent with
    | none => []
    | some p =>
      match p.children.getLast? with
      | none => []
      | some l => [Eff.cursor (adjust jb l.start)]

/-- The `goto_first_child` operation (`if node.children: children[0]`). -/
def goto_first_child (jb : Bool) (cur : Option NodeCtx) : List Eff :=
  match cur with
  | none => []
  | some ctx =>
    match ctx.children with
    | [] => []
    | c :: _ => [Eff.cursor (adjust jb c.start)]

/-- The `goto_last_child` operation (`if node.children: children[-1]`). -/
def goto_last_child (jb : Bool) (cur : Option NodeCtx) : List Eff :=
  match cur with
  | none => []
  | some ctx =>
    match ctx.children.getLast? with
    | none => []
    | some l => [Eff.cursor (adjust jb l.start)]

/-- The `goto_parent` operation: jump to `parent.start` unless the parent
is the "root" sentinel, in which case report "no parent found".  A current
node always has a parent (the root at minimum), so the parentless case is
left effect-free. -/
def goto_parent (jb : Bool) (cur : Option NodeCtx) : List Eff :=
  match cur with
  | none => []
  | some ctx =>
    match ctx.parent with
    | none => []
    | some p =>
      if p.tag ≠ "root" then [Eff.cursor (adjust jb p.start)]
      else [Eff.echom "no parent found"]

/-- The patterns `highlight_curr_element` submits: the opening tag name
span always, and additionally the closing tag span when the tag is not a
void tag.  (The operation first clears the BreezeHl group; the list models
the `v.highlight` calls that follow.) -/
def highlight_curr_element (cur : Option Node) : List Pattern :=
  match cur with
  | none => []
  | some node =>
    Pattern.lineColRange node.start.1 (node.start.2 + 1)
        (node.start.2 + 1 + node.tag.length + 1) ::
      (if ! empty_tags.contains node.tag then
        [Pattern.lineColRange node.end_.1 (node.end_.2 + 1)
          (node.end_.2 + 1 + node.tag.length + 2)]
      else [])

/-- The patterns `highlight_element_block` submits.  Mirrors the source
faithfully, including its slip in the multi-line branch: the closing-line
pattern is computed into a local (`closing`) but the call passes `patt`
(the start-line pattern) a second time, so the closing line is never
highlighted. -/
def highlight_element_block (cur : Option Node) : List Pattern :=
  match cur with
  | none => []
  | some node =>
    if ! empty_tags.contains node.tag && node.start.1 != node.end_.1 then
      -- patt = start-line pattern (endcol is computed but absent from the
      -- format string, so the region runs to the end of the line)
      -- closing = \%{eline}l\%<{endcol}c, computed but never submitted
      [Pattern.lineColAfter node.start.1 node.start.2,
       Pattern.lineColAfter node.start.1 node.start.2,
       Pattern.lineRange node.start.1 node.end_.1]
    else
      if empty_tags.contains node.tag then
        [Pattern.lineColAfter node.start.1 node.start.2]
      else
        [Pattern.lineColRange node.start.1 node.start.2
          (node.end_.2 + node.tag.length + 4)]

/-- The closing-line pattern the multi-line branch of
`highlight_element_block` computes into its unused local `closing`. -/
def blockClosingPattern (node : Node) : Pattern :=
  Pattern.lineColBefore node.end_.1 (node.end_.2 + 1 + node.tag.length + 3)

/-- State threaded through the caching decorator `parse_current_buffer`:
the dirty flag and cached tree of `Breeze.__init__`, the parser's current
tree, the set of active highlight groups, and two instrumentation counters
(`Parser.feed` invocations and wrapped-body executions). -/
structure CacheState (τ : Type) where
  refresh_cache : Bool
  cache : Option τ
  tree : Option τ
  hl : List String
  feedCount : Nat
  bodyRuns : Nat
deriving Repr

/-- The effect of `v.clear_hl(*groups)` on the active highlight groups:
every entry of a named group is removed. -/
def clear_hl (groups : List String) (hl : List String) : List String :=
  hl.filter (fun g => ! groups.contains g)

/-- The caching decorator `Breeze.parse_current_buffer`, with `Parser.feed`
abstracted as a function from a buffer to a (success, tree) pair: when the
dirty flag or the buffer's modified signal is set it re-feeds, installing
the new tree in the cache on success and, on failure, clearing the
BreezeJumpMark/BreezeShade highlights, re-marking the cache dirty and
skipping the wrapped body; otherwise it reuses the cached tree. -/
def parse_current_buffer {τ β : Type} (feed : β → Bool × τ)
    (s : CacheState τ) (buf : β) (modified : Bool) : CacheState τ :=
  if s.refresh_cache || modified then
    if (feed buf).1 then
      { s with
        feedCount := s.feedCount + 1
        tree := some (feed buf).2
        cache := some (feed buf).2
        refresh_cache := false
        bodyRuns := s.bodyRuns + 1 }
    else
      { s with
        feedCount := s.feedCount + 1
        tree := some (feed buf).2
        hl := clear_hl ["BreezeJumpMark", "BreezeShade"] s.hl
        refresh_cache := true }
  else
    { s with tree := s.cache, bodyRuns := s.bodyRuns + 1 }

/-- The caching state set up by `Breeze.__init__`: dirty flag raised, no
cached tree, counters at zero. -/
def initCacheState (τ : Type) : CacheState τ :=
  { refresh_cache := true, cache := none, tree := none,
    hl := [], feedCount := 0, bodyRuns := 0 }

/-- C1 (counterexample): starting from the initial state, with an unmodified
buffer whose parse fails, invoking a gated operation twice performs the
scan/build pass twice — a failed parse leaves the cache dirty, so the
second invocation re-feeds; "at most once" does not hold as stated. -/
theorem cache_gate_refeeds_after_failed_parse :
    (parse_current_buffer (fun _ : List String => (false, (0 : Nat)))
      (parse_current_buffer (fun _ : List String => (false, (0 : Nat)))
        (initCacheState Nat) [] false) [] false).feedCount = 2 ∧
    ¬ ((parse_current_buffer (fun _ : List String => (false, (0 : Nat)))
      (parse_current_buffer (fun _ : List String => (false, (0 : Nat)))
        (initCacheState Nat) [] false) [] false).feedCount
        ≤ (initCacheState Nat).feedCount + 1) := by
  decide

/-- C1 (amended): when the refresh flag is clear and the buffer is
unmodified, the gate does not invoke `Parser.feed`, runs the wrapped body
against the cached tree, and — provided a parse attempted on the first
invocation succeeds — two invocations on the same unmodified buffer invoke
the scan/build pass at most once. -/
theorem cache_gate_hit_reuses_cache {τ β : Type} (feed : β → Bool × τ)
    (s : CacheState τ) (buf : β) :
    (s.refresh_cache = false →
      (parse_current_buffer feed s buf false).feedCount = s.feedCount ∧
      (parse_current_buffer feed s buf false).tree = s.cache ∧
      (parse_current_buffer feed s buf false).bodyRuns = s.bodyRuns + 1) ∧
    ((feed buf).1 = true →
      (parse_current_buffer feed
        (parse_current_buffer feed s buf false) buf false).feedCount
        ≤ s.feedCount + 1) := by
  constructor
  · intro h
    simp [parse_current_buffer, h]
  · intro hs
    by_cases hr : s.refresh_cache
    · simp [parse_current_buffer, hr, hs]
    · simp [parse_current_buffer, hr]

/-- C1 (witness): the amended theorem evaluated on a concrete clean state
and a concrete succeeding parser. -/
theorem cache_gate_hit_reuses_cache_witness :
    ((parse_current_buffer (fun _ : String => (true, (7 : Nat)))
        ⟨false, some 5, none, [], 3, 0⟩ "x" false).feedCount = 3 ∧
      (parse_current_buffer (fun _ : String => (true, (7 : Nat)))
        ⟨false, some 5, none, [], 3, 0⟩ "x" false).tree = some 5 ∧
      (parse_current_buffer (fun _ : String => (true, (7 : Nat)))
        ⟨false, some 5, none, [], 3, 0⟩ "x" false).bodyRuns = 1) ∧
    (parse_current_buffer (fun _ : String => (true, (7 : Nat)))
      (parse_current_buffer (fun _ : String => (true, (7 : Nat)))
        ⟨false, some 5, none, [], 3, 0⟩ "x" false) "x" false).feedCount ≤ 4 := by
  have h := cache_gate_hit_reuses_cache (fun _ : String => (true, (7 : Nat)))
    ⟨false, some 5, none, [], 3, 0⟩ "x"
  exact ⟨h.1 rfl, h.2 rfl⟩

/-- C2: when the gate re-parses (dirty flag or modified signal set) and
`Parser.feed` reports failure, the BreezeJumpMark/BreezeShade highlight
state is cleared, the dirty flag is re-raised, the wrapped body does not
execute and the cached tree is not replaced. -/
theorem parse_failure_clears_and_aborts {τ β : Type} (feed : β → Bool × τ)
    (s : CacheState τ) (buf : β) (modified : Bool)
    (hgo : s.refresh_cache = true ∨ modified = true)
    (hfail : (feed buf).1 = false) :
    (parse_current_buffer feed s buf modified).hl
        = clear_hl ["BreezeJumpMark", "BreezeShade"] s.hl ∧
    "BreezeJumpMark" ∉ (parse_current_buffer feed s buf modified).hl ∧
    "BreezeShade" ∉ (parse_current_buffer feed s buf modified).hl ∧
    (parse_current_buffer feed s buf modified).refresh_cache = true ∧
    (parse_current_buffer feed s buf modified).bodyRuns = s.bodyRuns ∧
    (parse_current_buffer feed s buf modified).cache = s.cache := by
  have hcond : (s.refresh_cache || modified) = true := by
    rcases hgo with h | h <;> simp [h]
  refine ⟨?_, ?_, ?_, ?_, ?_, ?_⟩ <;>
    simp [parse_current_buffer, hcond, hfail, clear_hl, List.mem_filter]

/-- C2 (witness): the failure path evaluated on a concrete state holding a
BreezeShade highlight, a cached tree and a failing parser. -/
theorem parse_failure_clears_and_aborts_witness :
    (parse_current_buffer (fun _ : String => (false, (0 : Nat)))
      ⟨false, some 5, some 5, ["BreezeShade", "Other"], 1, 1⟩ "x" true).hl
        = ["Other"] ∧
    (parse_current_buffer (fun _ : String => (false, (0 : Nat)))
      ⟨false, some 5, some 5, ["BreezeShade", "Other"], 1, 1⟩ "x" true).refresh_cache
        = true ∧
    (parse_current_buffer (fun _ : String => (false, (0 : Nat)))
      ⟨false, some 5, some 5, ["BreezeShade", "Other"], 1, 1⟩ "x" true).bodyRuns = 1 ∧
    (parse_current_buffer (fun _ : String => (false, (0 : Nat)))
      ⟨false, some 5, some 5, ["BreezeShade", "Other"], 1, 1⟩ "x" true).cache
        = some 5 := by
  have h := parse_failure_clears_and_aborts (fun _ : String => (false, (0 : Nat)))
    ⟨false, some 5, some 5, ["BreezeShade", "Other"], 1, 1⟩ "x" true
    (Or.inr rfl) rfl
  exact ⟨by rw [h.1]; rfl, h.2.2.2.1, h.2.2.2.2.1, h.2.2.2.2.2⟩

/-- C3: `match_tag` issues exactly one cursor move, to the adjusted target;
the target is `node.start` when the cursor line differs from the start
line, and on the start line it is `node.end` exactly when the cursor
column lies within the literal opening-tag text (from the start column up
to start column plus the length of `starttag_text`) and `node.start`
otherwise.  The hypothesis is the guarantee of `get_current_node` (whose
module is not among the sources; modelled from the spec): the returned
node's span contains the cursor position, so on the start line the cursor
column is at least the start column. -/
theorem match_tag_target_selection (node : Node) (cursor : Pos)
    (h : cursor.1 = node.start.1 → node.start.2 ≤ cursor.2) :
    (∀ jb : Bool, match_tag jb (some node) cursor
        = [Eff.cursor (adjust jb (match_tag_target node cursor))]) ∧
    (cursor.1 ≠ node.start.1 → match_tag_target node cursor = node.start) ∧
    (cursor.1 = node.start.1 →
      match_tag_target node cursor =
        if node.start.2 ≤ cursor.2 ∧
            cursor.2 < node.start.2 + node.starttag_text.length
        then node.end_ else node.start) := by
  refine ⟨fun jb => rfl, ?_, ?_⟩
  · intro hne
    simp [match_tag_target, hne]
  · intro heq
    have h2 := h heq
    rw [match_tag_target, if_neg (by simp [heq])]
    by_cases hlt : cursor.2 < node.start.2 + node.starttag_text.length
    · rw [if_pos hlt, if_pos ⟨h2, hlt⟩]
    · rw [if_neg hlt, if_neg (fun hc => hlt hc.2)]

/-- C3 (witness): with the cursor on the start line, inside the literal
text `<div>`, the selected target is the node's end position. -/
theorem match_tag_target_selection_witness :
    match_tag_target ⟨"div", (1, 0), (5, 0), "<div>"⟩ (1, 2) = (5, 0) := by
  have h := (match_tag_target_selection ⟨"div", (1, 0), (5, 0), "<div>"⟩ (1, 2)
    (by decide)).2.2 rfl
  rw [h]
  decide

/-- C4: on a multi-line non-void node, `highlight_element_block` submits
three patterns, but the second is the start-line pattern again, not the
closing-line pattern it computed into its unused local `closing` — the
closing tag's characters on the end line are never highlighted. -/
theorem highlight_element_block_misses_closing_line :
    highlight_element_block (some ⟨"div", (1, 0), (3, 0), "<div>"⟩) =
      [Pattern.lineColAfter 1 0, Pattern.lineColAfter 1 0,
       Pattern.lineRange 1 3] ∧
    blockClosingPattern ⟨"div", (1, 0), (3, 0), "<div>"⟩ =
      Pattern.lineColBefore 3 7 ∧
    blockClosingPattern ⟨"div", (1, 0), (3, 0), "<div>"⟩ ∉
      highlight_element_block (some ⟨"div", (1, 0), (3, 0), "<div>"⟩) := by
  decide

/-- C5: `highlight_curr_element` submits exactly two regions — the opening
tag name span and the closing tag span — when the node's tag is not in the
void-tag set, and exactly the opening span when it is; no closing-tag
region is ever produced for a void tag. -/
theorem highlight_curr_element_regions (node : Node) :
    highlight_curr_element (some node) =
      (if empty_tags.contains node.tag then
        [Pattern.lineColRange node.start.1 (node.start.2 + 1)
          (node.start.2 + 1 + node.tag.length + 1)]
      else
        [Pattern.lineColRange node.start.1 (node.start.2 + 1)
          (node.start.2 + 1 + node.tag.length + 1),
         Pattern.lineColRange node.end_.1 (node.end_.2 + 1)
          (node.end_.2 + 1 + node.tag.length + 2)]) ∧
    (highlight_curr_element (some node)).length =
      (if empty_tags.contains node.tag then 1 else 2) := by
  by_cases hv : node.tag ∈ empty_tags <;>
    simp [highlight_curr_element, hv]

/-- The sibling position `ch[i-1]` the previous-sibling scan carries: the
last element of the prefix already traversed, or the initially carried
value when the prefix is empty. -/
def lastCarry (p0 : Option Node) (l : List Node) : Option Node :=
  match l.getLast? with
  | some m => some m
  | none => p0

theorem lastCarry_cons (p0 : Option Node) (a : Node) (l : List Node) :
    lastCarry p0 (a :: l) = lastCarry (some a) l := by
  cases l with
  | nil => simp [lastCarry]
  | cons b t =>
    cases h : (b :: t).getLast? with
    | none => simp at h
    | some m => simp [lastCarry, List.getLast?_cons_cons, h]

theorem lastCarry_none (l : List Node) : lastCarry none l = l.getLast? := by
  cases h : l.getLast? <;> simp [lastCarry, h]

theorem nextSibScan_no_match (jb : Bool) (node : Node) (l : List Node)
    (h : ∀ x ∈ l, ¬(x.start = node.start ∧ x.end_ = node.end_)) :
    nextSibScan jb node l = [] := by
  induction l with
  | nil => rfl
  | cons c rest ih =>
    have hc := h c (List.mem_cons_self c rest)
    simp only [nextSibScan, if_neg hc, List.nil_append]
    exact ih (fun x hx => h x (List.mem_cons_of_mem c hx))

theorem prevSibScan_no_match (jb : Bool) (node : Node) (l : List Node) :
    ∀ p0, (∀ x ∈ l, ¬(x.start = node.start ∧ x.end_ = node.end_)) →
      prevSibScan jb node p0 l = [] := by
  induction l with
  | nil => intro p0 h; rfl
  | cons c rest ih =>
    intro p0 h
    have hc := h c (List.mem_cons_self c rest)
    simp only [prevSibScan, if_neg hc, List.nil_append]
    exact ih (some c) (fun x hx => h x (List.mem_cons_of_mem c hx))

/-- Effect issued for a located neighbor slot: jump to the neighbor's start
when the slot is occupied, report "no siblings found" otherwise. -/
def sibEffOf (jb : Bool) (neighbor : Option Node) : List Eff :=
  match neighbor with
  | some n => [Eff.cursor (adjust jb n.start)]
  | none => [Eff.echom "no siblings found"]

theorem nextSibScan_found (jb : Bool) (node c : Node) (post : List Node)
    (hc : c.start = node.start ∧ c.end_ = node.end_)
    (hpost : ∀ x ∈ post, ¬(x.start = node.start ∧ x.end_ = node.end_)) :
    ∀ pre, (∀ x ∈ pre, ¬(x.start = node.start ∧ x.end_ = node.end_)) →
      nextSibScan jb node (pre ++ c :: post) = sibEffOf jb post.head? := by
  intro pre
  induction pre with
  | nil =>
    intro _
    simp only [List.nil_append, nextSibScan, if_pos hc]
    rw [nextSibScan_no_match jb node post hpost, List.append_nil]
    cases post <;> rfl
  | cons a pre ih =>
    intro hpre
    have ha := hpre a (List.mem_cons_self a pre)
    simp only [List.cons_append, nextSibScan, if_neg ha, List.nil_append]
    exact ih (fun x hx => hpre x (List.mem_cons_of_mem a hx))

theorem prevSibScan_found (jb : Bool) (node c : Node) (post : List Node)
    (hc : c.start = node.start ∧ c.end_ = node.end_)
    (hpost : ∀ x ∈ post, ¬(x.start = node.start ∧ x.end_ = node.end_)) :
    ∀ pre p0, (∀ x ∈ pre, ¬(x.start = node.start ∧ x.end_ = node.end_)) →
      prevSibScan jb node p0 (pre ++ c :: post)
        = sibEffOf jb (lastCarry p0 pre) := by
  intro pre
  induction pre with
  | nil =>
    intro p0 _
    simp only [List.nil_append, prevSibScan, if_pos hc]
    rw [prevSibScan_no_match jb node post (some c) hpost, List.append_nil]
    cases p0 <;> rfl
  | cons a pre ih =>
    intro p0 hpre
    have ha := hpre a (List.mem_cons_self a pre)
    simp only [List.cons_append, prevSibScan, if_neg ha, List.nil_append]
    rw [lastCarry_cons]
    exact ih (some a) (fun x hx => hpre x (List.mem_cons_of_mem a hx))

/-- C6: with a parent present, the sibling scans locate the current node in
`parent.children` by its (start, end) pair; `goto_next_sibling` moves the
cursor to the start of the following child and `goto_prev_sibling` to the
start of the preceding one; at the boundary they report "no siblings
found" and leave the cursor unmoved; without a parent they report
"no more siblings" / "no previous siblings". -/
theorem sibling_navigation (jb : Bool) (ctx : NodeCtx) (p : ParentView)
    (pre post : List Node) (c : Node)
    (hp : ctx.parent = some p)
    (hch : p.children = pre ++ c :: post)
    (hc : c.start = ctx.node.start ∧ c.end_ = ctx.node.end_)
    (hpre : ∀ x ∈ pre, ¬(x.start = ctx.node.start ∧ x.end_ = ctx.node.end_))
    (hpost : ∀ x ∈ post, ¬(x.start = ctx.node.start ∧ x.end_ = ctx.node.end_)) :
    goto_next_sibling jb (some ctx) = sibEffOf jb post.head? ∧
    goto_prev_sibling jb (some ctx) = sibEffOf jb pre.getLast? ∧
    (post = [] → ∀ c0, runEffs (goto_next_sibling jb (some ctx)) c0
        = (c0, ["no siblings found"])) ∧
    (pre = [] → ∀ c0, runEffs (goto_prev_sibling jb (some ctx)) c0
        = (c0, ["no siblings found"])) ∧
    (∀ ctx2 : NodeCtx, ctx2.parent = none →
      goto_next_sibling jb (some ctx2) = [Eff.echom "no more siblings"] ∧
      goto_prev_sibling jb (some ctx2) = [Eff.echom "no previous siblings"]) := by
  have hnext : goto_next_sibling jb (some ctx) = sibEffOf jb post.head? := by
    simp only [goto_next_sibling, hp, hch]
    exact nextSibScan_found jb ctx.node c post hc hpost pre hpre
  have hprev : goto_prev_sibling jb (some ctx) = sibEffOf jb pre.getLast? := by
    simp only [goto_prev_sibling, hp, hch]
    rw [prevSibScan_found jb ctx.node c post hc hpost pre none hpre,
      lastCarry_none]
  refine ⟨hnext, hprev, ?_, ?_, ?_⟩
  · intro h0 c0
    subst h0
    rw [hnext]
    rfl
  · intro h0 c0
    subst h0
    rw [hprev]
    rfl
  · intro ctx2 h2
    constructor <;> simp [goto_next_sibling, goto_prev_sibling, h2]

/-- C6 (witness): three value-distinct siblings; from the middle one,
`goto_next_sibling` jumps to the start of the third (with the one-column
adjustment applied). -/
theorem sibling_navigation_witness :
    goto_next_sibling false
      (some ⟨⟨"p", (2, 0), (2, 6), "<p>"⟩,
        some ⟨"div", (0, 0),
          [⟨"p", (1, 0), (1, 6), "<p>"⟩,
           ⟨"p", (2, 0), (2, 6), "<p>"⟩,
           ⟨"p", (3, 0), (3, 6), "<p>"⟩]⟩, []⟩)
      = [Eff.cursor (3, 1)] :=
  (sibling_navigation false
    ⟨⟨"p", (2, 0), (2, 6), "<p>"⟩,
      some ⟨"div", (0, 0),
        [⟨"p", (1, 0), (1, 6), "<p>"⟩,
         ⟨"p", (2, 0), (2, 6), "<p>"⟩,
         ⟨"p", (3, 0), (3, 6), "<p>"⟩]⟩, []⟩
    ⟨"div", (0, 0),
      [⟨"p", (1, 0), (1, 6), "<p>"⟩,
       ⟨"p", (2, 0), (2, 6), "<p>"⟩,
       ⟨"p", (3, 0), (3, 6), "<p>"⟩]⟩
    [⟨"p", (1, 0), (1, 6), "<p>"⟩]
    [⟨"p", (3, 0), (3, 6), "<p>"⟩]
    ⟨"p", (2, 0), (2, 6), "<p>"⟩
    rfl rfl (by decide) (by decide) (by decide)).1

/-- C7: with a parent present, `goto_parent` moves the cursor to the
parent's start when the parent's tag is not the "root" sentinel, and
otherwise reports "no parent found" and leaves the cursor unmoved. -/
theorem goto_parent_root_sentinel (jb : Bool) (ctx : NodeCtx) (p : ParentView)
    (hp : ctx.parent = some p) :
    (p.tag ≠ "root" →
      goto_parent jb (some ctx) = [Eff.cursor (adjust jb p.start)]) ∧
    (p.tag = "root" →
      goto_parent jb (some ctx) = [Eff.echom "no parent found"] ∧
      ∀ c0, runEffs (goto_parent jb (some ctx)) c0
        = (c0, ["no parent found"])) := by
  constructor
  · intro h
    simp [goto_parent, hp, h]
  · intro h
    have he : goto_parent jb (some ctx) = [Eff.echom "no parent found"] := by
      simp [goto_parent, hp, h]
    exact ⟨he, fun c0 => by rw [he]; rfl⟩

/-- C7 (witness): a concrete node whose parent is a `div` — the cursor
moves to the parent's start with the one-column adjustment. -/
theorem goto_parent_root_sentinel_witness :
    goto_parent false
      (some ⟨⟨"p", (2, 2), (2, 8), "<p>"⟩,
        some ⟨"div", (1, 0), [⟨"p", (2, 2), (2, 8), "<p>"⟩]⟩, []⟩)
      = [Eff.cursor (1, 1)] :=
  (goto_parent_root_sentinel false
    ⟨⟨"p", (2, 2), (2, 8), "<p>"⟩,
      some ⟨"div", (1, 0), [⟨"p", (2, 2), (2, 8), "<p>"⟩]⟩, []⟩
    ⟨"div", (1, 0), [⟨"p", (2, 2), (2, 8), "<p>"⟩]⟩
    rfl).1 (by decide)

/-- C8: every navigation and highlight operation is a no-op when
`get_current_node` returns null: no effect is issued (so the cursor does
not move and no message is emitted) and no highlight pattern is added —
and a total Lean function cannot raise. -/
theorem null_current_node_noop (jb : Bool) (c0 : Pos) :
    match_tag jb none c0 = [] ∧
    goto_next_sibling jb none = [] ∧
    goto_prev_sibling jb none = [] ∧
    goto_first_sibling jb none = [] ∧
    goto_last_sibling jb none = [] ∧
    goto_first_child jb none = [] ∧
    goto_last_child jb none = [] ∧
    goto_parent jb none = [] ∧
    highlight_curr_element none = [] ∧
    highlight_element_block none = [] ∧
    runEffs [] c0 = (c0, []) :=
  ⟨rfl, rfl, rfl, rfl, rfl, rfl, rfl, rfl, rfl, rfl, rfl⟩

/-- Rewrites the cursor effects of an operation run with the
`jump_to_angle_bracket` setting fixed to true (targets hit exactly) into
the effects of a run under an arbitrary setting value. -/
def offsetEff (jb : Bool) : Eff → Eff
  | Eff.cursor p => Eff.cursor (adjust jb p)
  | Eff.echom m => Eff.echom m

theorem nextSibScan_offset (jb : Bool) (node : Node) (l : List Node) :
    nextSibScan jb node l = (nextSibScan true node l).map (offsetEff jb) := by
  induction l with
  | nil => rfl
  | cons c rest ih =>
    simp only [nextSibScan, List.map_append]
    rw [← ih]
    by_cases hc : c.start = node.start ∧ c.end_ = node.end_
    · rw [if_pos hc, if_pos hc]
      cases rest <;> rfl
    · rw [if_neg hc, if_neg hc]
      rfl

theorem prevSibScan_offset (jb : Bool) (node : Node) (l : List Node) :
    ∀ p0, prevSibScan jb node p0 l
      = (prevSibScan true node p0 l).map (offsetEff jb) := by
  induction l with
  | nil => intro p0; rfl
  | cons c rest ih =>
    intro p0
    simp only [prevSibScan, List.map_append]
    rw [← ih (some c)]
    by_cases hc : c.start = node.start ∧ c.end_ = node.end_
    · rw [if_pos hc, if_pos hc]
      cases p0 <;> rfl
    · rw [if_neg hc, if_neg hc]
      rfl

/-- C9: the `jump_to_angle_bracket` offset is applied uniformly by every
jump operation: with the setting true the cursor lands exactly on the
target's start column, with it false one column to the right, and each
operation under an arbitrary setting equals its exact-target run with the
adjustment mapped over the cursor effects. -/
theorem uniform_jump_offset (jb : Bool) (cur : Option Node)
    (ctxOpt : Option NodeCtx) (c0 : Pos) :
    (∀ p : Pos, adjust true p = p ∧ adjust false p = (p.1, p.2 + 1)) ∧
    match_tag jb cur c0 = (match_tag true cur c0).map (offsetEff jb) ∧
    goto_next_sibling jb ctxOpt
      = (goto_next_sibling true ctxOpt).map (offsetEff jb) ∧
    goto_prev_sibling jb ctxOpt
      = (goto_prev_sibling true ctxOpt).map (offsetEff jb) ∧
    goto_first_sibling jb ctxOpt
      = (goto_first_sibling true ctxOpt).map (offsetEff jb) ∧
    goto_last_sibling jb ctxOpt
      = (goto_last_sibling true ctxOpt).map (offsetEff jb) ∧
    goto_first_child jb ctxOpt
      = (goto_first_child true ctxOpt).map (offsetEff jb) ∧
    goto_last_child jb ctxOpt
      = (goto_last_child true ctxOpt).map (offsetEff jb) ∧
    goto_parent jb ctxOpt = (goto_parent true ctxOpt).map (offsetEff jb) := by
  refine ⟨fun p => ⟨rfl, rfl⟩, ?_, ?_, ?_, ?_, ?_, ?_, ?_, ?_⟩
  · cases cur <;> rfl
  · cases ctxOpt with
    | none => rfl
    | some ctx =>
      obtain ⟨nd, par, ch⟩ := ctx
      cases par with
      | none => rfl
      | some p => exact nextSibScan_offset jb nd p.children
  · cases ctxOpt with
    | none => rfl
    | some ctx =>
      obtain ⟨nd, par, ch⟩ := ctx
      cases par with
      | none => rfl
      | some p => exact prevSibScan_offset jb nd p.children none
  · cases ctxOpt with
    | none => rfl
    | some ctx =>
      obtain ⟨nd, par, ch⟩ := ctx
      cases par with
      | none => rfl
      | some p =>
        simp only [goto_first_sibling]
        cases p.children <;> rfl
  · cases ctxOpt with
    | none => rfl
    | some ctx =>
      obtain ⟨nd, par, ch⟩ := ctx
      cases par with
      | none => rfl
      | some p =>
        simp only [goto_last_sibling]
        cases p.children.getLast? <;> rfl
  · cases ctxOpt with
    | none => rfl
    | some ctx =>
      obtain ⟨nd, par, ch⟩ := ctx
      cases ch <;> rfl
  · cases ctxOpt with
    | none => rfl
    | some ctx =>
      obtain ⟨nd, par, ch⟩ := ctx
      simp only [goto_last_child]
      cases ch.getLast? <;> rfl
  · cases ctxOpt with
    | none => rfl
    | some ctx =>
      obtain ⟨nd, par, ch⟩ := ctx
      cases par with
      | none => rfl
      | some p =>
        simp only [goto_parent]
        by_cases h : p.tag = "root" <;> simp [h, offsetEff, adjust]

/-- C10: with a parent present and a nonempty children list,
`goto_first_sibling` and `goto_last_sibling` unconditionally jump to the
first and last child's start with no message; when the current node
already is the first child the target is its own start, and applying the
operation twice ends at the same cursor position as applying it once. -/
theorem first_last_sibling_unconditional (jb : Bool) (ctx : NodeCtx)
    (p : ParentView) (c : Node) (rest : List Node)
    (hp : ctx.parent = some p) (hch : p.children = c :: rest) :
    goto_first_sibling jb (some ctx) = [Eff.cursor (adjust jb c.start)] ∧
    (∀ l, (c :: rest).getLast? = some l →
      goto_last_sibling jb (some ctx) = [Eff.cursor (adjust jb l.start)]) ∧
    (∀ c0, (runEffs (goto_first_sibling jb (some ctx)) c0).2 = [] ∧
      (runEffs (goto_last_sibling jb (some ctx)) c0).2 = []) ∧
    (ctx.node = c →
      goto_first_sibling jb (some ctx)
        = [Eff.cursor (adjust jb ctx.node.start)]) ∧
    (∀ c0, (runEffs (goto_first_sibling jb (some ctx))
        ((runEffs (goto_first_sibling jb (some ctx)) c0).1)).1
        = (runEffs (goto_first_sibling jb (some ctx)) c0).1 ∧
      (runEffs (goto_last_sibling jb (some ctx))
        ((runEffs (goto_last_sibling jb (some ctx)) c0).1)).1
        = (runEffs (goto_last_sibling jb (some ctx)) c0).1) := by
  have hfirst : goto_first_sibling jb (some ctx)
      = [Eff.cursor (adjust jb c.start)] := by
    simp [goto_first_sibling, hp, hch]
  have hlast : ∀ l, (c :: rest).getLast? = some l →
      goto_last_sibling jb (some ctx) = [Eff.cursor (adjust jb l.start)] := by
    intro l hl
    simp [goto_last_sibling, hp, hch, hl]
  refine ⟨hfirst, hlast, ?_, ?_, ?_⟩
  · intro c0
    constructor
    · rw [hfirst]
      rfl
    · cases hl : (c :: rest).getLast? with
      | none => simp at hl
      | some l =>
        rw [hlast l hl]
        rfl
  · intro he
    rw [hfirst, he]
  · intro c0
    constructor
    · rw [hfirst]
      rfl
    · cases hl : (c :: rest).getLast? with
      | none => simp at hl
      | some l =>
        rw [hlast l hl]
        rfl

/-- C10 (witness): from the middle of three siblings, `goto_first_sibling`
jumps to the first child's start with the one-column adjustment. -/
theorem first_last_sibling_unconditional_witness :
    goto_first_sibling false
      (some ⟨⟨"li", (2, 0), (2, 8), "<li>"⟩,
        some ⟨"ul", (0, 0),
          [⟨"li", (1, 0), (1, 8), "<li>"⟩,
           ⟨"li", (2, 0), (2, 8), "<li>"⟩,
           ⟨"li", (3, 0), (3, 8), "<li>"⟩]⟩, []⟩)
      = [Eff.cursor (1, 1)] :=
  (first_last_sibling_unconditional false
    ⟨⟨"li", (2, 0), (2, 8), "<li>"⟩,
      some ⟨"ul", (0, 0),
        [⟨"li", (1, 0), (1, 8), "<li>"⟩,
         ⟨"li", (2, 0), (2, 8), "<li>"⟩,
         ⟨"li", (3, 0), (3, 8), "<li>"⟩]⟩, []⟩
    ⟨"ul", (0, 0),
      [⟨"li", (1, 0), (1, 8), "<li>"⟩,
       ⟨"li", (2, 0), (2, 8), "<li>"⟩,
       ⟨"li", (3, 0), (3, 8), "<li>"⟩]⟩
    ⟨"li", (1, 0), (1, 8), "<li>"⟩
    [⟨"li", (2, 0), (2, 8), "<li>"⟩, ⟨"li", (3, 0), (3, 8), "<li>"⟩]
    rfl rfl).1

end Breeze
